/-
Verification of the chess ruleset module (ruleset.py) of the profchessor
repository.  The definitions below are a shallow embedding of the Python
source: Python lists become Lean lists, Python ints become Int (with
Python floor division and floor modulo mirrored by Int.fdiv / Int.fmod),
the string-encoded pieces become an inductive type, and the mutable
attributes of the Position class become fields of a Lean structure that
every method returns updated.  Python exceptions that can arise inside
move generation (one assert and one int-vs-list comparison) are tracked
by a boolean ok flag threaded through the generation state.
-/
import Mathlib

set_option maxRecDepth 20000

/-- Pieces as encoded by the source's one-letter strings: uppercase is
White, lowercase is Black.  The empty square (the empty string in the
source) is modelled by Option.none at the board level. -/
inductive Piece where
  | P | R | N | B | Q | K
  | p | r | n | b | q | k
deriving DecidableEq, Repr

/-- A board square content: a piece or the empty string. -/
abbrev Cell := Option Piece

/-- Python str.isupper on a one-letter piece string: True exactly for
the White pieces. -/
def Piece.isupper : Piece → Bool
  | .P | .R | .N | .B | .Q | .K => true
  | _ => false

/-- The expression `piece if piece == "p" else piece.upper()` from
generate_piece_moves: the black pawn keeps its case, every other piece
is upcased. -/
def Piece.pieceType : Piece → Piece
  | .p => .p
  | .r => .R
  | .n => .N
  | .b => .B
  | .q => .Q
  | .k => .K
  | pc => pc

/-- Membership in ("P", "p"). -/
def Piece.isPawn : Piece → Bool
  | .P | .p => true
  | _ => false

/-- Membership in ("K", "k"). -/
def Piece.isKing : Piece → Bool
  | .K | .k => true
  | _ => false

/-- Values held by the checking_piece attribute.  The source stores -1,
-2 or a square index (ints), but the double-check branch overwrites the
-2 sentinel with the empty list [], so the attribute is int-or-list. -/
inductive CheckingPiece where
  | int (i : Int)
  | emptyList
deriving DecidableEq, Repr

/-- Python `tracer == self.checking_piece` where tracer is an int: an
int never equals a list. -/
def CheckingPiece.eqInt (cp : CheckingPiece) (t : Int) : Bool :=
  match cp with
  | .int i => t == i
  | .emptyList => false

/-- Python `self.checking_piece >= 0`.  Comparing a list with an int
raises TypeError, reported through the second component of the result
(false means the comparison raised). -/
def CheckingPiece.ge0 (cp : CheckingPiece) : Bool × Bool :=
  match cp with
  | .int i => (0 ≤ i, true)
  | .emptyList => (false, false)

/-- The four castling sides "K", "Q", "k", "q" (keys of
CASTLING_SQUARES and of castling_rights). -/
inductive CSide where
  | K | Q | k | q
deriving DecidableEq, Repr

/-- The castling_rights dictionary. -/
structure CastlingRights where
  K : Bool
  Q : Bool
  k : Bool
  q : Bool
deriving DecidableEq, Repr

/-- Dictionary lookup castling_rights[side]. -/
def CastlingRights.get (cr : CastlingRights) : CSide → Bool
  | .K => cr.K
  | .Q => cr.Q
  | .k => cr.k
  | .q => cr.q

/-- Dictionary update castling_rights[side] = b. -/
def CastlingRights.set (cr : CastlingRights) (s : CSide) (v : Bool) : CastlingRights :=
  match s with
  | .K => { cr with K := v }
  | .Q => { cr with Q := v }
  | .k => { cr with k := v }
  | .q => { cr with q := v }

namespace MoveResults

def ILLEGAL : Int := 0
def MOVE : Int := 1
def CAPTURE : Int := 2
def CASTLE : Int := 3
def EN_PASSANT : Int := 4
def PROMOTION : Int := 5
def PROMPT_PROMOTION : Int := 6

end MoveResults

/-- Python floor division a // b. -/
def pyDiv (a b : Int) : Int := Int.fdiv a b

/-- Python modulo a % b (sign follows the divisor). -/
def pyMod (a b : Int) : Int := Int.fmod a b

/-- i_to_xy from the source. -/
def i_to_xy (i : Int) : Int × Int := (pyMod i 8, pyDiv i 8)

/-- offset_to_xy from the source. -/
def offset_to_xy (i : Int) : Int × Int :=
  let x := pyMod i 8
  let y := pyDiv i 8
  if x > 4 then (pyMod x (-8), y + 1) else (x, y)

/-- i_to_coordinate from the source: chr(ord("a") + i % 8) followed by
str(8 - i // 8). -/
def i_to_coordinate (i : Int) : String :=
  String.mk [Char.ofNat (97 + (pyMod i 8)).toNat] ++ (8 - pyDiv i 8).repr

/-- coordinate_to_i from the source.  The source raises ValueError when
the string has the wrong length, the file is outside a-h, or the rank
is outside 1-8 (a non-digit rank character makes the int() conversion
itself raise); all failure modes are collected in the error case.  On
success it returns ord(coor[0]) - ord("a") + (8 - int(coor[1])) -- the
source as written does not multiply the rank term by 8. -/
def coordinate_to_i (coor : String) : Except String Int :=
  match coor.data with
  | [c0, c1] =>
    if !(("abcdefgh".data).contains c0) then
      .error "invalid coordinate"
    else if !c1.isDigit then
      .error "invalid coordinate"
    else
      let v : Int := Int.ofNat (c1.toNat - 48)
      if !(1 ≤ v ∧ v ≤ 8) then .error "invalid coordinate"
      else .ok ((Int.ofNat c0.toNat) - 97 + (8 - v))
  | _ => .error "invalid coordinate"

/-- is_tracer_at_edge from the source. -/
def is_tracer_at_edge (tracer offset : Int) : Bool :=
  let txy := i_to_xy tracer
  let oxy := offset_to_xy offset
  let x := txy.1 + oxy.1
  let y := txy.2 + oxy.2
  !(decide (0 ≤ x ∧ x ≤ 7 ∧ 0 ≤ y ∧ y ≤ 7))

/-- MOVE_OFFSETS indexed by the piece type (always uppercase except the
black pawn). -/
def moveOffsets : Piece → List Int
  | .P => [-8, -7, -9]
  | .p => [8, 7, 9]
  | .R => [1, -1, 8, -8]
  | .B => [7, -7, 9, -9]
  | .N => [6, -6, 10, -10, 15, -15, 17, -17]
  | _ => [1, -1, 8, -8, 7, -7, 9, -9]

/-- CASTLING_SQUARES from the source. -/
def castlingSquares : CSide → List Int
  | .K => [60, 61, 62, 63]
  | .Q => [60, 59, 58, 56, 57]
  | .k => [4, 5, 6, 7]
  | .q => [4, 3, 2, 0, 1]

/-- Iteration order of CASTLING_SQUARES.items(). -/
def csideOrder : List CSide := [.K, .Q, .k, .q]

/-- STARTING_BOARD from the source. -/
def STARTING_BOARD : List Cell :=
  [some .r, some .n, some .b, some .q, some .k, some .b, some .n, some .r] ++
  List.replicate 8 (some .p) ++ List.replicate 32 none ++
  List.replicate 8 (some .P) ++
  [some .R, some .N, some .B, some .Q, some .K, some .B, some .N, some .R]

/-- Python board[i] for the square indices that arise during tracing
(they stay inside [0, 64) thanks to the edge checks); out-of-range
indices yield the empty square in the model. -/
def boardGet (b : List Cell) (i : Int) : Cell :=
  if i < 0 then none else (b.getD i.toNat none)

/-- Python board[i] = v (indices in range in every modelled run). -/
def boardSet (b : List Cell) (i : Int) (v : Cell) : List Cell :=
  if i < 0 then b else b.set i.toNat v

/-- Python `x in xs` for a list of ints. -/
def memI (x : Int) : List Int → Bool
  | [] => false
  | y :: ys => (x == y) || memI x ys

/-- Python `tracer in self.pins` where pins is a list of lists of ints:
the membership test compares an int with each inner list, and an int
never equals a list, so the test is False for every element. -/
def memPins (_ : Int) (pins : List (List Int)) : Bool :=
  pins.any (fun _ => false)

/-- Python self.pinned_pieces.index(square): index of the first
occurrence (only evaluated under a membership guard in the source). -/
def idxOfI (x : Int) : List Int → Nat
  | [] => 0
  | y :: ys => if x == y then 0 else idxOfI x ys + 1

/-- Python self.pins[self.pinned_pieces.index(square)]. -/
def pinLineOf (pins : List (List Int)) (pinned_pieces : List Int) (square : Int) : List Int :=
  pins.getD (idxOfI square pinned_pieces) []

/-- The check and pin bookkeeping attributes that generate_piece_moves
mutates on self, threaded explicitly, together with an ok flag that
records whether a Python exception (the king-capture assert, or the
int-vs-list >= comparison) occurred. -/
structure GenState where
  check : Bool
  checking_piece : CheckingPiece
  checking_path : List Int
  pins : List (List Int)
  pinned_pieces : List Int
  en_passant_pinned : Int
  ok : Bool
deriving DecidableEq, Repr

/-- The per-offset tracer context: everything the tracing loop of
generate_piece_moves reads but never writes, except the attacked_squares
set which is passed separately alongside it. -/
structure TraceCtx where
  board : List Cell
  en_passantable : Int
  square : Int
  piece : Piece
  pt : Piece
  offset : Int
  controlling : Bool
  mustEvade : Bool
  pawnPush : Bool
  pawnCapture : Bool

/-- The `tracer_piece in ("K", "k") and different_color` sub-block of
the occupied-square case: on reaching the enemy king record a check
(double checks overwrite the -2 sentinel with the empty list), an
absolute pin, or an en passant pin.  Returns the updated state and the
stop_tracing flag. -/
def kingHit (c : TraceCtx) (path behind : List Int) (pinSuspect : Int) (sEp : Bool)
    (tpc : Piece) (dc : Bool) (st : GenState) : GenState × Bool :=
  if tpc.isKing && dc then
    if pinSuspect == -1 then
      let g := st.checking_piece.ge0
      let stA := { st with check := true, ok := (st.ok && c.controlling) && g.2 }
      if g.1 then
        -- double check: checking_piece is assigned -2 and then []
        ({ { stA with checking_piece := CheckingPiece.int (-2) } with
           checking_piece := CheckingPiece.emptyList }, false)
      else
        ({ stA with
           checking_piece := CheckingPiece.int c.square,
           checking_path := path }, false)
    else
      if !sEp then
        ({ st with
           pins := st.pins ++ [[c.square] ++ path ++ behind],
           pinned_pieces := st.pinned_pieces ++ [pinSuspect] }, true)
      else
        ({ st with en_passant_pinned := pinSuspect }, true)
  else (st, true)

/-- The `if pin_suspect == -1:` sub-block of the occupied-square case:
append the square to the path, become a phantom tracer behind an enemy
piece, and detect en passant pin candidates.  Returns the new tracer,
path, pin_suspect, searching_ep_pin and stop_tracing values. -/
def suspectScan (c : TraceCtx) (tracer : Int) (path : List Int) (pinSuspect : Int)
    (sEp : Bool) (tpc : Piece) (dc : Bool) (stop1 : Bool) :
    Int × List Int × Int × Bool × Bool :=
  if pinSuspect == -1 then
    let path2 := path ++ [tracer]
    let ps2 := if c.controlling && dc && !tpc.isKing then tracer else pinSuspect
    let stop2 := if c.controlling && dc && !tpc.isKing then false else stop1
    if !(c.en_passantable == -1) && tpc.isPawn &&
       (pyDiv c.square 8 == 3 || pyDiv c.square 8 == 4) && c.offset.natAbs == 1 then
      let front_sq := tracer
      let tracer2 := tracer + c.offset
      let back_sq := tracer2
      let back := boardGet c.board tracer2
      let inner : Int × Bool :=
        match back with
        | some bp =>
          if bp.isPawn && (tpc.isupper != bp.isupper) then
            if (front_sq - c.en_passantable).natAbs == 8 then (back_sq, false)
            else if (back_sq - c.en_passantable).natAbs == 8 then (front_sq, false)
            else (ps2, true)
          else (ps2, false)
        | none => (ps2, false)
      (tracer2, path2, inner.1, true, inner.2)
    else (tracer, path2, ps2, sEp, stop2)
  else (tracer, path, pinSuspect, sEp, stop1)

/-- The empty-square case of one tracer step: Sum.inl means the loop
breaks with the given final path, Sum.inr carries the updated path and
squares_behind_suspect for the next step. -/
def emptyStep (c : TraceCtx) (attacked : List Int) (tracer : Int) (path behind : List Int)
    (pinSuspect : Int) (st : GenState) : (List Int) ⊕ (List Int × List Int) :=
  if !c.pawnCapture || c.controlling ||
     (tracer == c.en_passantable && !(c.square == st.en_passant_pinned)) then
    if !(pinSuspect == -1) then Sum.inr (path, behind ++ [tracer])
    else if memI c.square st.pinned_pieces &&
            !(memI tracer (pinLineOf st.pins st.pinned_pieces c.square)) then
      Sum.inl path
    else if (!c.mustEvade && !(c.pt == Piece.K)) || (c.controlling && !c.pawnPush) ||
            (c.pt == Piece.K && !(memI tracer attacked)) then
      Sum.inr (path ++ [tracer], behind)
    else if c.mustEvade && !(c.pt == Piece.K) && memI tracer st.checking_path then
      Sum.inl (path ++ [tracer])
    else Sum.inr (path, behind)
  else Sum.inr (path, behind)

/-- The acceptance condition of the occupied-square case (whether the
tracer piece is appended / processed). -/
def acceptPiece (c : TraceCtx) (attacked : List Int) (tracer : Int) (dc : Bool)
    (st : GenState) : Bool :=
  (!(memI c.square st.pinned_pieces) || memPins tracer st.pins) &&
  (c.controlling || (dc && !c.pawnPush &&
    ((!(c.pt == Piece.K) && (!c.mustEvade || st.checking_piece.eqInt tracer)) ||
     (c.pt == Piece.K && !(memI tracer attacked)))))

/-- One tracer of generate_piece_moves: the `for _ in range(trace_distance)`
loop.  Arguments after the fuel mirror the loop-local variables: tracer,
tracer_path, pin_suspect, squares_behind_suspect, searching_ep_pin, and
the mutable self attributes (GenState).  Returns the traced path and the
updated state. -/
def traceLoop (c : TraceCtx) (attacked : List Int) :
    Nat → Int → List Int → Int → List Int → Bool → GenState → List Int × GenState
  | 0, _, path, _, _, _, st => (path, st)
  | fuel + 1, tracer, path, pinSuspect, behind, sEp, st =>
    match boardGet c.board tracer with
    | some tpc =>
      let dc := tpc.isupper != c.piece.isupper
      if acceptPiece c attacked tracer dc st then
        let r1 := kingHit c path behind pinSuspect sEp tpc dc st
        match suspectScan c tracer path pinSuspect sEp tpc dc r1.2 with
        | (tracerF, pathF, psF, sEpF, stopF) =>
          if stopF then (pathF, r1.1)
          else if is_tracer_at_edge tracerF c.offset && !c.pawnCapture then (pathF, r1.1)
          else traceLoop c attacked fuel (tracerF + c.offset) pathF psF behind sEpF r1.1
      else (path, st)
    | none =>
      match emptyStep c attacked tracer path behind pinSuspect st with
      | Sum.inl pdone => (pdone, st)
      | Sum.inr pb =>
        if is_tracer_at_edge tracer c.offset && !c.pawnCapture then (pb.1, st)
        else traceLoop c attacked fuel (tracer + c.offset) pb.1 pinSuspect pb.2 sEp st

/-- can_castle from the source. -/
def can_castle (board : List Cell) (attacked : List Int) (rights : CastlingRights)
    (check : Bool) (side : CSide) : Bool :=
  let cs := castlingSquares side
  let after := [cs.getD 1 0, cs.getD 2 0]
  let between := after ++ (if side == CSide.Q || side == CSide.q then [cs.getD 4 0] else [])
  !check && rights.get side &&
  between.all (fun s => (boardGet board s).isNone) &&
  after.all (fun s => !(memI s attacked))

/-- The castling block at the end of generate_piece_moves: for a king
in legal mode and not in check, append the castling destination of each
side whose can_castle test passes. -/
def addCastling (board : List Cell) (attacked : List Int) (rights : CastlingRights)
    (square : Int) (pt : Piece) (controlling : Bool) (r : List Int × GenState) :
    List Int × GenState :=
  if pt == Piece.K && !controlling && !r.2.check then
    csideOrder.foldl (fun (acc : List Int × GenState) side =>
      let cs := castlingSquares side
      if square == cs.getD 0 0 && can_castle board attacked rights acc.2.check side then
        (acc.1 ++ [cs.getD 2 0], acc.2)
      else acc) r
  else r

/-- generate_piece_moves from the source: iterate one tracer per offset
of the piece on the given square, then append castling destinations for
an uncastled king.  An empty source square would make the source raise
ValueError (piece not in PIECE_TYPES); the model records that through
the ok flag. -/
def generate_piece_moves (board : List Cell) (attacked : List Int) (en_passantable : Int)
    (rights : CastlingRights) (square : Int) (controlling : Bool) (st : GenState) :
    List Int × GenState :=
  match boardGet board square with
  | none => ([], { st with ok := false })
  | some piece =>
    let pt := piece.pieceType
    let mustEvade := st.check && !controlling
    let r := (moveOffsets pt).foldl (fun (acc : List Int × GenState) offset =>
      let pawnPush := pt.isPawn && offset.natAbs == 8
      let pawnCapture := pt.isPawn && !(offset.natAbs == 8)
      if is_tracer_at_edge square offset || (pawnPush && controlling) then acc
      else
        let dist : Nat :=
          if (pt == Piece.N || pt == Piece.K) || pawnCapture then 1
          else if pawnPush then (if pyDiv square 8 == 1 || pyDiv square 8 == 6 then 2 else 1)
          else 7
        let c : TraceCtx :=
          { board := board, en_passantable := en_passantable, square := square,
            piece := piece, pt := pt, offset := offset, controlling := controlling,
            mustEvade := mustEvade, pawnPush := pawnPush, pawnCapture := pawnCapture }
        let pr := traceLoop c attacked dist (square + offset) [] (-1) [] false acc.2
        (acc.1 ++ pr.1, pr.2)) ([], st)
    addCastling board attacked rights square pt controlling r

/-- The Position class attributes (the transposition table, which no
modelled method reads or writes, is omitted). -/
structure Position where
  board : List Cell
  turn : Bool
  move_num : Int
  halfmove_clock : Int
  en_passantable : Int
  castling_rights : CastlingRights
  legal_moves : List (Int × List Int)
  enemy_moves : List (Int × List Int)
  attacked_squares : List Int
  pins : List (List Int)
  pinned_pieces : List Int
  en_passant_pinned : Int
  check : Bool
  checking_piece : CheckingPiece
  checking_path : List Int
deriving DecidableEq, Repr

/-- Python `[i for i, x in enumerate(board) if x.isupper()]` (white
pieces) resp. islower (black pieces), in ascending square order. -/
def colorSquaresAux (w : Bool) : List Cell → Int → List Int
  | [], _ => []
  | c :: rest, i =>
    (match c with
     | some pc => if pc.isupper == w then [i] else []
     | none => []) ++ colorSquaresAux w rest (i + 1)

def colorSquares (b : List Cell) (w : Bool) : List Int := colorSquaresAux w b 0

/-- One generation pass of update_moves: a dict comprehension running
generate_piece_moves over the given squares in order, threading the
mutable check/pin state. -/
def genPass (board : List Cell) (attacked : List Int) (en_passantable : Int)
    (rights : CastlingRights) (squares : List Int) (controlling : Bool) (st : GenState) :
    List (Int × List Int) × GenState :=
  squares.foldl (fun (acc : List (Int × List Int) × GenState) sq =>
    let r := generate_piece_moves board attacked en_passantable rights sq controlling acc.2
    (acc.1 ++ [(sq, r.1)], r.2)) ([], st)

/-- update_moves from the source: reset the check and pin bookkeeping
(but not en_passant_pinned), run the controlling pass over the enemy
pieces (which reads the stale attacked_squares field), collect the
attacked squares, then run the legal pass over the side to move.
The second component reports whether the whole computation was free of
Python exceptions. -/
def update_moves_core (p : Position) : Position × Bool :=
  let st0 : GenState :=
    { check := false, checking_piece := CheckingPiece.int (-1), checking_path := [],
      pins := [], pinned_pieces := [], en_passant_pinned := p.en_passant_pinned, ok := true }
  let white := colorSquares p.board true
  let black := colorSquares p.board false
  let er := genPass p.board p.attacked_squares p.en_passantable p.castling_rights
    (if p.turn then black else white) true st0
  let attacked := (er.1.map (fun kv => kv.2)).flatten
  let lr := genPass p.board attacked p.en_passantable p.castling_rights
    (if p.turn then white else black) false er.2
  ({ p with
     enemy_moves := er.1, attacked_squares := attacked, legal_moves := lr.1,
     check := lr.2.check, checking_piece := lr.2.checking_piece,
     checking_path := lr.2.checking_path, pins := lr.2.pins,
     pinned_pieces := lr.2.pinned_pieces,
     en_passant_pinned := lr.2.en_passant_pinned }, lr.2.ok)

def update_moves (p : Position) : Position := (update_moves_core p).1

/-- True when update_moves on p raises no Python exception. -/
def update_moves_ok (p : Position) : Bool := (update_moves_core p).2

/-- The attribute values set by Position.__init__ before update_moves
is called (the no-fen, no-load_from constructor path). -/
def initPosition : Position :=
  { board := STARTING_BOARD, turn := true, move_num := 1, halfmove_clock := 0,
    en_passantable := -1, castling_rights := { K := true, k := true, Q := true, q := true },
    legal_moves := [], enemy_moves := [], attacked_squares := [], pins := [],
    pinned_pieces := [], en_passant_pinned := -1, check := false,
    checking_piece := CheckingPiece.int (-1), checking_path := [] }

/-- Position() with no arguments: the standard starting position with
its derived move state computed. -/
def startPosition : Position := update_moves initPosition

/-- Python dict lookup self.legal_moves[old] (keys are unique). -/
def lookupMoves : List (Int × List Int) → Int → Option (List Int)
  | [], _ => none
  | kv :: rest, x => if kv.1 == x then some kv.2 else lookupMoves rest x

/-- Python `piece in ("P", "p")` where piece may be the empty string. -/
def cellIsPawn (c : Cell) : Bool :=
  match c with
  | some pc => pc.isPawn
  | none => false

/-- Python `piece in ("K", "k")` where piece may be the empty string. -/
def cellIsKing (c : Cell) : Bool :=
  match c with
  | some pc => pc.isKing
  | none => false

/-- Position.move from the source.  Returns the int result code paired
with the updated position (the source mutates self).  Note that the
final statement of the source is literally `return 1`. -/
def Position.move (p : Position) (old new : Int) (promote_to : Option Piece) :
    Int × Position :=
  match lookupMoves p.legal_moves old with
  | none => (MoveResults.ILLEGAL, p)
  | some ms =>
    if !(memI new ms) then (MoveResults.ILLEGAL, p)
    else
      let piece := boardGet p.board old
      let captured := boardGet p.board new
      if cellIsPawn piece && (pyDiv new 8 == 0 || pyDiv new 8 == 8) && promote_to.isNone then
        (MoveResults.PROMPT_PROMOTION, p)
      else
        let b1 := boardSet (boardSet p.board new piece) old none
        -- en passant bookkeeping: (board, captured_piece, en_passantable, new_en_passantable)
        let t : List Cell × Cell × Int × Bool :=
          if cellIsPawn piece then
            if (new - old).natAbs == 16 then
              (b1, captured, old + (if piece == some Piece.p then 8 else -8), true)
            else if new == p.en_passantable then
              let eps := new + (if piece == some Piece.p then -8 else 8)
              (boardSet b1 eps none, boardGet b1 eps, p.en_passantable, false)
            else (b1, captured, p.en_passantable, false)
          else (b1, captured, p.en_passantable, false)
        match t with
        | (b2, captured2, epMid, newEp) =>
          let ep3 : Int := if newEp then epMid else -1
          let rights2 := csideOrder.foldl (fun (r : CastlingRights) side =>
            let cs := castlingSquares side
            if old == cs.getD 0 0 || old == cs.getD 3 0 || new == cs.getD 3 0 then
              r.set side false
            else r) p.castling_rights
          let b3 :=
            if cellIsKing piece && (new - old).natAbs == 2 then
              csideOrder.foldl (fun (bb : List Cell) side =>
                let cs := castlingSquares side
                if new == cs.getD 2 0 then
                  boardSet (boardSet bb (cs.getD 1 0) (boardGet bb (cs.getD 3 0)))
                    (cs.getD 3 0) none
                else bb) b2
            else b2
          let hc := if cellIsPawn piece || !captured2.isNone then 0 else p.halfmove_clock + 1
          let turn2 := !p.turn
          let mn := if turn2 then p.move_num + 1 else p.move_num
          let p2 := update_moves
            { p with
              board := b3, en_passantable := ep3, castling_rights := rights2,
              halfmove_clock := hc, turn := turn2, move_num := mn }
          ((1 : Int), p2)

/-- The `sum(len(x) for x in self.legal_moves.values())` leaf count of
Position.search. -/
def leafCount (p : Position) : Nat :=
  p.legal_moves.foldl (fun a kv => a + kv.2.length) 0

/-- Position.search from the source, recursing on the depth: at depth
at most 1 it returns the leaf count, otherwise it copies the position,
applies each legal move and sums the recursive counts. -/
def searchAux : Nat → Position → Nat
  | 0, p => leafCount p
  | 1, p => leafCount p
  | d + 2, p =>
    p.legal_moves.foldl (fun acc kv =>
      kv.2.foldl (fun a2 nw => a2 + searchAux (d + 1) (Position.move p kv.1 nw none).2) acc) 0

def Position.search (p : Position) (depth : Nat) : Nat := searchAux depth p

/-- The recognized FEN piece letters (PIECE_TYPES membership). -/
def charToPiece (ch : Char) : Option Piece :=
  if ch == 'P' then some Piece.P else if ch == 'R' then some Piece.R
  else if ch == 'N' then some Piece.N else if ch == 'B' then some Piece.B
  else if ch == 'Q' then some Piece.Q else if ch == 'K' then some Piece.K
  else if ch == 'p' then some Piece.p else if ch == 'r' then some Piece.r
  else if ch == 'n' then some Piece.n else if ch == 'b' then some Piece.b
  else if ch == 'q' then some Piece.q else if ch == 'k' then some Piece.k
  else none

/-- The inner loop of load_fen decoding one row: letters append a piece,
digits append that many empty squares, anything else raises ValueError. -/
def decodeRowAux : List Char → List Cell → Except String (List Cell)
  | [], acc => Except.ok acc
  | ch :: rest, acc =>
    match charToPiece ch with
    | some pc => decodeRowAux rest (acc ++ [some pc])
    | none =>
      if ch.isDigit then decodeRowAux rest (acc ++ List.replicate (ch.toNat - 48) none)
      else Except.error "invalid FEN piece character"

/-- Python str.split("/") on the character list of the placement field:
every slash ends the current row, empty rows included. -/
def splitRows : List Char → List Char → List (List Char)
  | [], cur => [cur]
  | c :: rest, cur =>
    if c == '/' then cur :: splitRows rest [] else splitRows rest (cur ++ [c])

/-- The outer loop of load_fen piece placement: decode each row, check
its expansion is exactly 8 squares, and concatenate. -/
def decodeBoardAux : List (List Char) → List Cell → Except String (List Cell)
  | [], acc => Except.ok acc
  | row :: rest, acc =>
    match decodeRowAux row [] with
    | Except.error e => Except.error e
    | Except.ok r =>
      if r.length ≠ 8 then Except.error "row is not 8 long"
      else decodeBoardAux rest (acc ++ r)

/-- The piece-placement stage of Position.load_fen: split the first FEN
field on "/", require 8 rows, and run-length decode each row. -/
def decodePlacement (s : String) : Except String (List Cell) :=
  let rows := splitRows s.data []
  if rows.length ≠ 8 then Except.error "board does not consist of 8 rows"
  else decodeBoardAux rows []

/-- Specification-side predicate (from the spec's words, to compare with
the source decoder): the run-length expansion length of one row, where a
recognized piece letter contributes one square and a digit contributes
its value. -/
def rowExpansionLen : List Char → Nat
  | [] => 0
  | ch :: rest =>
    (if (charToPiece ch).isSome then 1 else if ch.isDigit then ch.toNat - 48 else 0) +
    rowExpansionLen rest

/-- Specification-side predicate: a row is well formed when every
character is a recognized piece letter or a digit and the run-length
expansion yields exactly 8 squares. -/
def rowWellFormed (row : List Char) : Prop :=
  (∀ ch ∈ row, (charToPiece ch).isSome ∨ ch.isDigit) ∧ rowExpansionLen row = 8

/-- Specification-side predicate: the placement field is well formed
when it splits into 8 slash-separated rows, each well formed. -/
def placementWellFormed (s : String) : Prop :=
  (splitRows s.data []).length = 8 ∧ ∀ row ∈ splitRows s.data [], rowWellFormed row

/-- A board of 64 empty squares, convenient for building test positions. -/
def emptyBoard : List Cell := List.replicate 64 none

/-- A Position as built directly before update_moves runs: the derived
move state is empty, matching a freshly constructed object. -/
def mkPos (b : List Cell) (turn : Bool) (ep epPinned : Int) (cr : CastlingRights) : Position :=
  { board := b, turn := turn, move_num := 1, halfmove_clock := 0, en_passantable := ep,
    castling_rights := cr, legal_moves := [], enemy_moves := [], attacked_squares := [],
    pins := [], pinned_pieces := [], en_passant_pinned := epPinned, check := false,
    checking_piece := CheckingPiece.int (-1), checking_path := [] }

def noRights : CastlingRights := { K := false, Q := false, k := false, q := false }

/-- A double check position: Black to move, black king e8 (square 4)
checked by white rooks on a8 (square 0) and e1 (square 60); white king
h1 (square 63). -/
def doubleCheckPos : Position :=
  update_moves (mkPos ((((emptyBoard.set 0 (some Piece.R)).set 4 (some Piece.k)).set 60
    (some Piece.R)).set 63 (some Piece.K)) false (-1) (-1) noRights)

/-- White to move; black king c5 (26), white pawn d5 (27), black pawn
e5 (28) which has just double-pushed (en passant target e6 = 20), white
rook f5 (29), white king h1 (63).  While generating the rook's moves
the legal pass records en_passant_pinned = 27, but only after the pawn
on 27 (generated earlier, in ascending square order) already received
its en passant capture. -/
def epPinFlipPos : Position :=
  mkPos (((((emptyBoard.set 26 (some Piece.k)).set 27 (some Piece.P)).set 28
    (some Piece.p)).set 29 (some Piece.R)).set 63 (some Piece.K)) true 20 (-1) noRights

/-- White to move; white pawn d5 (27), black pawn e5 (28) just
double-pushed (en passant target 20), kings far away, and a stale
en_passant_pinned = 27 left over from an earlier position even though
nothing pins the pawn here. -/
def stalePinPos : Position :=
  mkPos ((((emptyBoard.set 0 (some Piece.k)).set 27 (some Piece.P)).set 28
    (some Piece.p)).set 63 (some Piece.K)) true 20 27 noRights

/-- The same position with en_passant_pinned cleared. -/
def freshPinPos : Position :=
  mkPos ((((emptyBoard.set 0 (some Piece.k)).set 27 (some Piece.P)).set 28
    (some Piece.p)).set 63 (some Piece.K)) true 20 (-1) noRights

/-- Black to move with a black pawn on a2 (square 48) one push away
from the last rank (square 56); kings far away. -/
def blackPromoPos : Position :=
  update_moves (mkPos (((emptyBoard.set 48 (some Piece.p)).set 8 (some Piece.k)).set 63
    (some Piece.K)) false (-1) (-1) noRights)

/-- White to move with a white pawn on a7 (square 8) one push away from
the last rank (square 0); kings far away. -/
def whitePromoPos : Position :=
  update_moves (mkPos (((emptyBoard.set 8 (some Piece.P)).set 32 (some Piece.k)).set 63
    (some Piece.K)) true (-1) (-1) noRights)

deriving instance DecidableEq for Except

/-- The position after 1. e4 (52 to 36) d5 (11 to 27) from the standard
starting position: White can now capture the d5 pawn with 36 to 27. -/
def afterE4D5 : Position := ((startPosition.move 52 36 none).2.move 11 27 none).2

/-- C4: the coordinate conversions are claimed to be mutually inverse,
but coordinate_to_i omits the factor 8 on the rank term, so the
round trips fail: square 8 (a7) maps back to 1, and "a1" maps to 7
(h8). -/
theorem c4_coordinate_roundtrip_fails :
    i_to_coordinate 8 = "a7" ∧
    coordinate_to_i "a7" = Except.ok 1 ∧
    coordinate_to_i (i_to_coordinate 8) ≠ Except.ok 8 ∧
    coordinate_to_i "a1" = Except.ok 7 ∧
    i_to_coordinate 7 = "h8" ∧
    i_to_coordinate 7 ≠ "a1" := by decide

/-- C5: a move whose origin square is not a key of legal_moves, or whose
destination is not among the origin's legal destinations, is rejected
with ILLEGAL and the position is returned entirely unchanged; in
particular move(8, 16) from the standard starting position. -/
theorem c5_illegal_move_leaves_position_unchanged :
    (∀ (p : Position) (old new : Int) (pt : Option Piece),
      lookupMoves p.legal_moves old = none →
      p.move old new pt = (MoveResults.ILLEGAL, p)) ∧
    (∀ (p : Position) (old new : Int) (pt : Option Piece) (ms : List Int),
      lookupMoves p.legal_moves old = some ms → memI new ms = false →
      p.move old new pt = (MoveResults.ILLEGAL, p)) ∧
    startPosition.move 8 16 none = (MoveResults.ILLEGAL, startPosition) := by
  refine ⟨?_, ?_, by decide⟩
  · intro p old new pt h
    simp only [Position.move, h]
  · intro p old new pt ms h hm
    simp only [Position.move, h, hm, Bool.not_false, if_true]

/-- Witness for C5 at a concrete input: square 100 is not a key of the
starting position's legal_moves. -/
theorem c5_witness :
    startPosition.move 100 0 none = (MoveResults.ILLEGAL, startPosition) :=
  c5_illegal_move_leaves_position_unchanged.1 startPosition 100 0 none (by decide)

/-- C2: after 1. e4 d5, the capture 2. exd5 removes the black pawn on
square 27, yet Position.move returns MOVE (1), not CAPTURE (2): the
source ends with a literal `return 1` for every applied move, so the
claimed classification is never produced. -/
theorem c2_capture_returns_move_not_capture :
    boardGet afterE4D5.board 27 = some Piece.p ∧
    boardGet afterE4D5.board 36 = some Piece.P ∧
    (afterE4D5.move 36 27 none).1 = MoveResults.MOVE ∧
    (afterE4D5.move 36 27 none).1 ≠ MoveResults.CAPTURE ∧
    boardGet (afterE4D5.move 36 27 none).2.board 27 = some Piece.P := by decide

/-- C3: a white pawn reaching row 0 without a promotion argument is
prompted (PROMPT_PROMOTION, position unchanged), but a black pawn
reaching row 7 is not: the source tests `new // 8 in (0, 8)` instead of
(0, 7), so the move is applied and MOVE is returned, leaving an
unpromoted pawn on the last rank. -/
theorem c3_black_promotion_is_not_prompted :
    (whitePromoPos.move 8 0 none).1 = MoveResults.PROMPT_PROMOTION ∧
    (whitePromoPos.move 8 0 none).2 = whitePromoPos ∧
    boardGet blackPromoPos.board 48 = some Piece.p ∧
    lookupMoves blackPromoPos.legal_moves 48 = some [56] ∧
    pyDiv 56 8 = 7 ∧
    (blackPromoPos.move 48 56 none).1 = MoveResults.MOVE ∧
    (blackPromoPos.move 48 56 none).1 ≠ MoveResults.PROMPT_PROMOTION ∧
    boardGet (blackPromoPos.move 48 56 none).2.board 56 = some Piece.p ∧
    boardGet (blackPromoPos.move 48 56 none).2.board 48 = none := by decide

/-- C6: in a double check position update_moves leaves checking_piece
holding the empty list, not the integer sentinel -2: the double check
branch assigns -2 and then immediately overwrites it with []. -/
theorem c6_double_check_checking_piece_is_a_list :
    doubleCheckPos.check = true ∧
    doubleCheckPos.checking_piece = CheckingPiece.emptyList ∧
    (∀ i : Int, doubleCheckPos.checking_piece ≠ CheckingPiece.int i) ∧
    update_moves_ok (mkPos ((((emptyBoard.set 0 (some Piece.R)).set 4 (some Piece.k)).set 60
      (some Piece.R)).set 63 (some Piece.K)) false (-1) (-1) noRights) = true := by
  refine ⟨by decide, by decide, ?_, by decide⟩
  intro i h
  have hb : doubleCheckPos.checking_piece = CheckingPiece.emptyList := by decide
  rw [hb] at h
  exact CheckingPiece.noConfusion h

theorem listGetD_set_self : ∀ (l : List Cell) (n : Nat) (v : Cell), n < l.length →
    (l.set n v).getD n none = v := by
  intro l
  induction l with
  | nil => intro n v h; simp at h
  | cons a t ih =>
    intro n v h
    cases n with
    | zero => rfl
    | succ m =>
      simp only [List.set, List.getD_cons_succ]
      exact ih m v (by simpa using h)

theorem listGetD_set_ne : ∀ (l : List Cell) (n m : Nat) (v : Cell), n ≠ m →
    (l.set n v).getD m none = l.getD m none := by
  intro l
  induction l with
  | nil => intro n m v _; rfl
  | cons a t ih =>
    intro n m v h
    cases n with
    | zero =>
      cases m with
      | zero => exact absurd rfl h
      | succ k => simp only [List.set, List.getD_cons_succ]
    | succ j =>
      cases m with
      | zero => simp only [List.set, List.getD_cons_zero]
      | succ k =>
        simp only [List.set, List.getD_cons_succ]
        exact ih j k v (fun e => h (by rw [e]))

theorem boardGet_boardSet_self (b : List Cell) (i : Int) (v : Cell)
    (h0 : 0 ≤ i) (h : i.toNat < b.length) : boardGet (boardSet b i v) i = v := by
  simp only [boardGet, boardSet, if_neg (Int.not_lt.mpr h0)]
  exact listGetD_set_self b i.toNat v h

theorem boardGet_boardSet_ne (b : List Cell) (i j : Int) (v : Cell)
    (h0 : 0 ≤ i) (h1 : 0 ≤ j) (hne : i ≠ j) :
    boardGet (boardSet b i v) j = boardGet b j := by
  simp only [boardGet, boardSet, if_neg (Int.not_lt.mpr h0), if_neg (Int.not_lt.mpr h1)]
  refine listGetD_set_ne b i.toNat j.toNat v (fun e => hne ?_)
  rw [← Int.toNat_of_nonneg h0, ← Int.toNat_of_nonneg h1, e]

theorem boardSet_neg (b : List Cell) (i : Int) (v : Cell) (h : i < 0) :
    boardSet b i v = b := by
  simp [boardSet, h]

theorem boardSet_length (b : List Cell) (i : Int) (v : Cell) :
    (boardSet b i v).length = b.length := by
  simp only [boardSet]
  split
  · rfl
  · exact List.length_set b i.toNat v

/-- update_moves recomputes only derived state: the board is untouched. -/
theorem update_moves_board (q : Position) : (update_moves q).board = q.board := rfl

/-- C9: when move accepts a pawn move onto the last rank with a
promotion piece supplied, the destination square still holds the
original pawn afterwards: the promote_to argument is never written to
the board. -/
theorem c9_promotion_piece_never_placed :
    ∀ (p : Position) (old new : Int) (ms : List Int) (pk pc : Piece),
      lookupMoves p.legal_moves old = some ms → memI new ms = true →
      boardGet p.board old = some pc →
      ((pc = Piece.P ∧ pyDiv new 8 = 0) ∨ (pc = Piece.p ∧ pyDiv new 8 = 7)) →
      0 ≤ old → 0 ≤ new → old ≠ new → new.toNat < p.board.length →
      (p.move old new (some pk)).1 = MoveResults.MOVE ∧
      boardGet (p.move old new (some pk)).2.board new = some pc := by
  intro p old new ms pk pc h1 hm h3 hrow h0old h0new hne hlen
  have hpawn : cellIsPawn (boardGet p.board old) = true := by
    rw [h3]; rcases hrow with ⟨rfl, _⟩ | ⟨rfl, _⟩ <;> rfl
  have hking : cellIsKing (boardGet p.board old) = false := by
    rw [h3]; rcases hrow with ⟨rfl, _⟩ | ⟨rfl, _⟩ <;> rfl
  have hb1 : boardGet (boardSet (boardSet p.board new (boardGet p.board old)) old none) new
      = some pc := by
    rw [boardGet_boardSet_ne _ _ _ _ h0old h0new hne,
        boardGet_boardSet_self _ _ _ h0new hlen, h3]
  simp only [Position.move, h1, hm, Bool.not_true, Bool.false_eq_true, if_false, hpawn,
    Option.isNone_some, Bool.and_false, Bool.true_and, hking, Bool.false_and, if_neg]
  refine ⟨rfl, ?_⟩
  rw [update_moves_board]
  dsimp only
  simp only [if_true]
  split
  · exact hb1
  · split
    · by_cases heps :
        (new + (if (boardGet p.board old == some Piece.p) = true then (-8 : Int) else 8)) < 0
      · rw [boardSet_neg _ _ _ heps]; exact hb1
      · rw [boardGet_boardSet_ne _ _ _ _ (Int.not_lt.mp heps) h0new ?_]
        · exact hb1
        · split <;> omega
    · exact hb1

/-- Witness for C9: promoting the white pawn a7 to a8 with a queen
supplied still leaves the pawn on the promotion square. -/
theorem c9_witness :
    (whitePromoPos.move 8 0 (some Piece.Q)).1 = MoveResults.MOVE ∧
    boardGet (whitePromoPos.move 8 0 (some Piece.Q)).2.board 0 = some Piece.P :=
  c9_promotion_piece_never_placed whitePromoPos 8 0 [0] Piece.Q Piece.P
    (by decide) (by decide) (by decide) (Or.inl ⟨rfl, by decide⟩)
    (by decide) (by decide) (by decide) (by decide)

theorem foldl_snd_pres {α β : Type} (P : GenState → Prop)
    (f : (β × GenState) → α → (β × GenState))
    (hf : ∀ acc x, P acc.2 → P (f acc x).2) :
    ∀ (l : List α) (acc : β × GenState), P acc.2 → P (l.foldl f acc).2 := by
  intro l
  induction l with
  | nil => intro acc h; exact h
  | cons a t ih => intro acc h; exact ih (f acc a) (hf acc a h)

theorem foldl_congr_fn {α β : Type} (f g : β → α → β) (h : ∀ acc x, f acc x = g acc x) :
    ∀ (l : List α) (acc : β), l.foldl f acc = l.foldl g acc := by
  intro l
  induction l with
  | nil => intro acc; rfl
  | cons a t ih => intro acc; rw [List.foldl_cons, List.foldl_cons, h, ih]

/-- kingHit only writes en_passant_pinned in the branch guarded by
pin_suspect being a real square, so a non-sentinel value stays
non-sentinel. -/
theorem kingHit_ep_ne (c : TraceCtx) (path behind : List Int) (ps : Int) (sEp : Bool)
    (tpc : Piece) (dc : Bool) (st : GenState) (h : st.en_passant_pinned ≠ -1) :
    (kingHit c path behind ps sEp tpc dc st).1.en_passant_pinned ≠ -1 := by
  unfold kingHit
  split
  · split
    · dsimp only
      split
      · exact h
      · exact h
    · split
      · exact h
      · rename_i hps _
        simp only [Bool.not_eq_true, beq_eq_false_iff_ne, ne_eq] at hps
        simpa using hps
  · exact h

/-- The tracing loop never resets en_passant_pinned to the -1 sentinel. -/
theorem traceLoop_ep_ne (c : TraceCtx) (A : List Int) :
    ∀ (fuel : Nat) (tracer : Int) (path : List Int) (ps : Int) (behind : List Int)
      (sEp : Bool) (st : GenState), st.en_passant_pinned ≠ -1 →
      (traceLoop c A fuel tracer path ps behind sEp st).2.en_passant_pinned ≠ -1 := by
  intro fuel
  induction fuel with
  | zero => intro tracer path ps behind sEp st h; exact h
  | succ n ih =>
    intro tracer path ps behind sEp st h
    simp only [traceLoop]
    cases hb : boardGet c.board tracer with
    | some tpc =>
      dsimp only
      split
      · split
        · exact kingHit_ep_ne c path behind ps sEp tpc _ st h
        · split
          · exact kingHit_ep_ne c path behind ps sEp tpc _ st h
          · exact ih _ _ _ _ _ _ (kingHit_ep_ne c path behind ps sEp tpc _ st h)
      · exact h
    | none =>
      dsimp only
      split
      · exact h
      · split
        · exact h
        · exact ih _ _ _ _ _ _ h

/-- The castling block never touches en_passant_pinned. -/
theorem addCastling_ep_ne (board : List Cell) (attacked : List Int)
    (rights : CastlingRights) (sq : Int) (pt : Piece) (ctl : Bool)
    (r : List Int × GenState) (h : r.2.en_passant_pinned ≠ -1) :
    (addCastling board attacked rights sq pt ctl r).2.en_passant_pinned ≠ -1 := by
  unfold addCastling
  split
  · refine foldl_snd_pres (fun g => g.en_passant_pinned ≠ -1) _ ?_ _ _ h
    intro acc side hacc
    dsimp only
    split
    · exact hacc
    · exact hacc
  · exact h

/-- generate_piece_moves never resets en_passant_pinned to -1. -/
theorem generate_ep_ne (board : List Cell) (A : List Int) (ep : Int)
    (rights : CastlingRights) (sq : Int) (ctl : Bool) (st : GenState)
    (h : st.en_passant_pinned ≠ -1) :
    (generate_piece_moves board A ep rights sq ctl st).2.en_passant_pinned ≠ -1 := by
  unfold generate_piece_moves
  cases hb : boardGet board sq with
  | none => exact h
  | some piece =>
    dsimp only
    refine addCastling_ep_ne _ _ _ _ _ _ _ ?_
    refine foldl_snd_pres (fun g => g.en_passant_pinned ≠ -1) _ ?_ _ _ h
    intro acc x hacc
    dsimp only
    split
    · exact hacc
    · exact traceLoop_ep_ne _ A _ _ _ _ _ _ _ hacc

/-- One generation pass never resets en_passant_pinned to -1. -/
theorem genPass_ep_ne (board : List Cell) (A : List Int) (ep : Int)
    (rights : CastlingRights) (squares : List Int) (ctl : Bool) (st : GenState)
    (h : st.en_passant_pinned ≠ -1) :
    (genPass board A ep rights squares ctl st).2.en_passant_pinned ≠ -1 := by
  unfold genPass
  refine foldl_snd_pres (fun g => g.en_passant_pinned ≠ -1) _ ?_ _ _ h
  intro acc sq hacc
  dsimp only
  exact generate_ep_ne board A ep rights sq ctl acc.2 hacc

/-- update_moves never resets en_passant_pinned back to the -1 sentinel. -/
theorem update_moves_ep_ne (p : Position) (h : p.en_passant_pinned ≠ -1) :
    (update_moves p).en_passant_pinned ≠ -1 := by
  unfold update_moves update_moves_core
  dsimp only
  exact genPass_ep_ne _ _ _ _ _ _ _ (genPass_ep_ne _ _ _ _ _ _ _ h)

/-- C10: update_moves resets the check and pin bookkeeping but never
resets en_passant_pinned to -1; a stale value persists and keeps
suppressing that square's en passant capture, as the concrete pair of
positions (identical boards, stale vs cleared en_passant_pinned)
shows. -/
theorem c10_en_passant_pinned_never_reset :
    (∀ p : Position, p.en_passant_pinned ≠ -1 → (update_moves p).en_passant_pinned ≠ -1) ∧
    (update_moves stalePinPos).en_passant_pinned = 27 ∧
    (update_moves stalePinPos).check = false ∧
    (update_moves stalePinPos).pins = [] ∧
    (update_moves stalePinPos).pinned_pieces = [] ∧
    lookupMoves (update_moves stalePinPos).legal_moves 27 = some [19] ∧
    lookupMoves (update_moves freshPinPos).legal_moves 27 = some [19, 20] ∧
    update_moves_ok stalePinPos = true :=
  ⟨fun p h => update_moves_ep_ne p h, by decide, by decide, by decide, by decide,
   by decide, by decide, by decide⟩

/-- Witness for C10 at a concrete input: the stale pin square survives
the recomputation. -/
theorem c10_witness : (update_moves stalePinPos).en_passant_pinned ≠ -1 :=
  c10_en_passant_pinned_never_reset.1 stalePinPos (by decide)

/-- In controlling mode the acceptance condition short-circuits before
consulting attacked_squares. -/
theorem acceptPiece_ctl (c : TraceCtx) (A B : List Int) (tracer : Int) (dc : Bool)
    (st : GenState) (hc : c.controlling = true) :
    acceptPiece c A tracer dc st = acceptPiece c B tracer dc st := by
  simp [acceptPiece, hc]

/-- In controlling mode (pawn pushes skipped) the empty-square step
short-circuits before consulting attacked_squares. -/
theorem emptyStep_ctl (c : TraceCtx) (A B : List Int) (tracer : Int)
    (path behind : List Int) (ps : Int) (st : GenState)
    (hc : c.controlling = true) (hp : c.pawnPush = false) :
    emptyStep c A tracer path behind ps st = emptyStep c B tracer path behind ps st := by
  simp [emptyStep, hc, hp]

/-- In controlling mode the whole tracer is independent of the
attacked_squares argument. -/
theorem traceLoop_ctl (c : TraceCtx) (A B : List Int)
    (hc : c.controlling = true) (hp : c.pawnPush = false) :
    ∀ (fuel : Nat) (tracer : Int) (path : List Int) (ps : Int) (behind : List Int)
      (sEp : Bool) (st : GenState),
      traceLoop c A fuel tracer path ps behind sEp st =
      traceLoop c B fuel tracer path ps behind sEp st := by
  intro fuel
  induction fuel with
  | zero => intro tracer path ps behind sEp st; rfl
  | succ n ih =>
    intro tracer path ps behind sEp st
    simp only [traceLoop]
    cases hb : boardGet c.board tracer with
    | some tpc =>
      dsimp only
      rw [acceptPiece_ctl c A B tracer _ st hc]
      split
      · split
        · rfl
        · split
          · rfl
          · exact ih _ _ _ _ _ _
      · rfl
    | none =>
      dsimp only
      rw [emptyStep_ctl c A B tracer path behind ps st hc hp]
      split
      · rfl
      · split
        · rfl
        · exact ih _ _ _ _ _ _

/-- The controlling pass of generate_piece_moves is independent of the
attacked_squares argument (the stale attacked set read by the enemy
pass never influences it). -/
theorem addCastling_ctl (board : List Cell) (A : List Int)
    (rights : CastlingRights) (sq : Int) (pt : Piece) (r : List Int × GenState) :
    addCastling board A rights sq pt true r = r := by
  unfold addCastling
  simp

theorem generate_ctl (board : List Cell) (A B : List Int) (ep : Int)
    (rights : CastlingRights) (sq : Int) (st : GenState) :
    generate_piece_moves board A ep rights sq true st =
    generate_piece_moves board B ep rights sq true st := by
  unfold generate_piece_moves
  cases hb : boardGet board sq with
  | none => rfl
  | some piece =>
    dsimp only
    rw [addCastling_ctl, addCastling_ctl]
    refine foldl_congr_fn _ _ ?_ _ _
    intro acc offset
    dsimp only
    split
    · rfl
    · rename_i hg
      have hpp : (piece.pieceType.isPawn && offset.natAbs == 8) = false := by
        cases hpq : (piece.pieceType.isPawn && offset.natAbs == 8) with
        | false => rfl
        | true => exact absurd (by simp [hpq]) hg
      rw [traceLoop_ctl _ A B rfl hpp]


/-- The whole controlling pass is independent of the stale
attacked_squares field it is handed. -/
theorem genPass_ctl (board : List Cell) (A B : List Int) (ep : Int)
    (rights : CastlingRights) (squares : List Int) (st : GenState) :
    genPass board A ep rights squares true st =
    genPass board B ep rights squares true st := by
  unfold genPass
  refine foldl_congr_fn _ _ ?_ _ _
  intro acc sq
  dsimp only
  rw [generate_ctl board A B ep rights sq acc.2]

/-- update_moves output on the claimed query fields depends only on
board, turn, en_passantable, castling_rights and en_passant_pinned:
the stale attacked_squares input never influences it. -/
theorem update_moves_eq_of_inputs (p q : Position)
    (hb : q.board = p.board) (ht : q.turn = p.turn)
    (he : q.en_passantable = p.en_passantable)
    (hr : q.castling_rights = p.castling_rights)
    (hp : q.en_passant_pinned = p.en_passant_pinned) :
    (update_moves q).legal_moves = (update_moves p).legal_moves ∧
    (update_moves q).check = (update_moves p).check ∧
    (update_moves q).attacked_squares = (update_moves p).attacked_squares := by
  unfold update_moves update_moves_core
  dsimp only
  rw [hb, ht, he, hr, hp, genPass_ctl p.board q.attacked_squares p.attacked_squares]
  exact ⟨rfl, rfl, rfl⟩

/-- C7 (amended): calling update_moves twice in a row is idempotent on
legal_moves, check and attacked_squares for every position on which the
first call leaves en_passant_pinned unchanged.  (The unamended claim is
refuted by c7_counterexample below: a legal-pass en passant pin write
can change en_passant_pinned and with it the second call's moves.) -/
theorem c7_update_moves_conditionally_idempotent :
    ∀ p : Position, (update_moves p).en_passant_pinned = p.en_passant_pinned →
      (update_moves (update_moves p)).legal_moves = (update_moves p).legal_moves ∧
      (update_moves (update_moves p)).check = (update_moves p).check ∧
      (update_moves (update_moves p)).attacked_squares = (update_moves p).attacked_squares :=
  fun p h => update_moves_eq_of_inputs p (update_moves p) rfl rfl rfl rfl h

/-- Witness for C7 at a concrete input: the starting position keeps
en_passant_pinned unchanged, so two update_moves calls agree. -/
theorem c7_witness :
    (update_moves (update_moves startPosition)).legal_moves =
      (update_moves startPosition).legal_moves ∧
    (update_moves (update_moves startPosition)).check = (update_moves startPosition).check ∧
    (update_moves (update_moves startPosition)).attacked_squares =
      (update_moves startPosition).attacked_squares :=
  c7_update_moves_conditionally_idempotent startPosition (by decide)

/-- C7 counterexample: on epPinFlipPos the first update_moves call
gives the d5 pawn both its push and its en passant capture, but the
rook's trace then records en_passant_pinned = 27, and the second call
suppresses the capture: update_moves is not unconditionally
idempotent. -/
theorem c7_counterexample :
    lookupMoves (update_moves epPinFlipPos).legal_moves 27 = some [19, 20] ∧
    lookupMoves (update_moves (update_moves epPinFlipPos)).legal_moves 27 = some [19] ∧
    (update_moves (update_moves epPinFlipPos)).legal_moves ≠
      (update_moves epPinFlipPos).legal_moves ∧
    (update_moves epPinFlipPos).en_passant_pinned = 27 ∧
    epPinFlipPos.en_passant_pinned = -1 ∧
    update_moves_ok epPinFlipPos = true ∧
    update_moves_ok (update_moves epPinFlipPos) = true := by decide

/-- Row decoding succeeds exactly when every character is a recognized
piece letter or a digit. -/
theorem decodeRowAux_ok_iff : ∀ (chars : List Char) (acc : List Cell),
    (∃ r, decodeRowAux chars acc = Except.ok r) ↔
    (∀ ch ∈ chars, (charToPiece ch).isSome ∨ ch.isDigit) := by
  intro chars
  induction chars with
  | nil =>
    intro acc
    exact ⟨fun _ => by simp, fun _ => ⟨acc, rfl⟩⟩
  | cons ch rest ih =>
    intro acc
    constructor
    · intro ⟨r, hr⟩ c hc
      rcases List.mem_cons.mp hc with rfl | hmem
      · by_cases hpc : (charToPiece c).isSome
        · exact Or.inl hpc
        · refine Or.inr ?_
          by_cases hd : c.isDigit
          · exact hd
          · exfalso
            unfold decodeRowAux at hr
            rw [Option.not_isSome_iff_eq_none.mp hpc] at hr
            simp only [hd, if_false] at hr
            exact Except.noConfusion hr
      · by_cases hpc : (charToPiece ch).isSome
        · rcases Option.isSome_iff_exists.mp hpc with ⟨pc, hpc2⟩
          unfold decodeRowAux at hr
          rw [hpc2] at hr
          exact ((ih _).mp ⟨r, hr⟩) c hmem
        · unfold decodeRowAux at hr
          rw [Option.not_isSome_iff_eq_none.mp hpc] at hr
          by_cases hd : ch.isDigit
          · simp only [hd, if_true] at hr
            exact ((ih _).mp ⟨r, hr⟩) c hmem
          · simp only [hd, if_false] at hr
            exact Except.noConfusion hr
    · intro hall
      unfold decodeRowAux
      cases hpc : charToPiece ch with
      | some pc =>
        exact (ih (acc ++ [some pc])).mpr (fun c hc => hall c (List.mem_cons_of_mem ch hc))
      | none =>
        have hd : ch.isDigit = true := by
          rcases hall ch (List.mem_cons_self ch rest) with hpc2 | hd
          · rw [hpc] at hpc2; exact absurd hpc2 (by simp)
          · exact hd
        simp only [hd, if_true]
        exact (ih (acc ++ List.replicate (ch.toNat - 48) none)).mpr
          (fun c hc => hall c (List.mem_cons_of_mem ch hc))

/-- A successful row decode has the run-length expansion length. -/
theorem decodeRowAux_length : ∀ (chars : List Char) (acc : List Cell) (r : List Cell),
    decodeRowAux chars acc = Except.ok r →
    r.length = acc.length + rowExpansionLen chars := by
  intro chars
  induction chars with
  | nil =>
    intro acc r hr
    cases hr
    simp [rowExpansionLen]
  | cons ch rest ih =>
    intro acc r hr
    unfold decodeRowAux at hr
    cases hpc : charToPiece ch with
    | some pc =>
      rw [hpc] at hr
      have := ih _ _ hr
      simp only [List.length_append, List.length_cons, List.length_nil] at this
      simp [this, rowExpansionLen, hpc, Option.isSome_some]
      omega
    | none =>
      rw [hpc] at hr
      by_cases hd : ch.isDigit
      · simp only [hd, if_true] at hr
        have := ih _ _ hr
        simp only [List.length_append, List.length_replicate] at this
        simp [this, rowExpansionLen, hpc, hd]
        omega
      · simp only [hd, if_false] at hr
        exact Except.noConfusion hr

/-- Board decoding succeeds exactly when every remaining row is well
formed. -/
theorem decodeBoardAux_ok_iff : ∀ (rows : List (List Char)) (acc : List Cell),
    (∃ b, decodeBoardAux rows acc = Except.ok b) ↔
    ∀ row ∈ rows, rowWellFormed row := by
  intro rows
  induction rows with
  | nil =>
    intro acc
    constructor
    · intro _ row hrow
      exact absurd hrow (List.not_mem_nil row)
    · intro _
      exact ⟨acc, rfl⟩
  | cons row rest ih =>
    intro acc
    constructor
    · intro ⟨b, hb⟩ r hr
      unfold decodeBoardAux at hb
      cases hrow : decodeRowAux row [] with
      | error e => rw [hrow] at hb; exact Except.noConfusion hb
      | ok rr =>
        rw [hrow] at hb
        dsimp only at hb
        by_cases hlen : rr.length ≠ 8
        · rw [if_pos hlen] at hb; exact Except.noConfusion hb
        · rw [if_neg hlen] at hb
          rcases List.mem_cons.mp hr with rfl | hmem
          · refine ⟨(decodeRowAux_ok_iff r []).mp ⟨rr, hrow⟩, ?_⟩
            have hh := decodeRowAux_length r [] rr hrow
            simp only [List.length_nil, Nat.zero_add] at hh
            omega
          · exact (ih (acc ++ rr)).mp ⟨b, hb⟩ r hmem
    · intro hall
      have hhead := hall row (List.mem_cons_self row rest)
      rcases (decodeRowAux_ok_iff row []).mpr hhead.1 with ⟨rr, hrow⟩
      have hlen : rr.length = 8 := by
        have hh := decodeRowAux_length row [] rr hrow
        simp only [List.length_nil, Nat.zero_add] at hh
        rw [hh]
        exact hhead.2
      rcases (ih (acc ++ rr)).mpr (fun r hrm => hall r (List.mem_cons_of_mem row hrm))
        with ⟨b, hb⟩
      refine ⟨b, ?_⟩
      unfold decodeBoardAux
      rw [hrow]
      dsimp only
      rw [if_neg (by omega)]
      exact hb

/-- A successful board decode appends exactly 8 squares per row. -/
theorem decodeBoardAux_length : ∀ (rows : List (List Char)) (acc b : List Cell),
    decodeBoardAux rows acc = Except.ok b → b.length = acc.length + 8 * rows.length := by
  intro rows
  induction rows with
  | nil =>
    intro acc b hb
    cases hb
    simp
  | cons row rest ih =>
    intro acc b hb
    unfold decodeBoardAux at hb
    cases hrow : decodeRowAux row [] with
    | error e => rw [hrow] at hb; exact Except.noConfusion hb
    | ok rr =>
      rw [hrow] at hb
      dsimp only at hb
      by_cases hlen : rr.length ≠ 8
      · rw [if_pos hlen] at hb; exact Except.noConfusion hb
      · rw [if_neg hlen] at hb
        have hh := ih _ _ hb
        simp only [List.length_append] at hh
        have h8 : rr.length = 8 := by omega
        rw [hh, h8, List.length_cons]
        ring

/-- C8: the piece-placement stage of load_fen fails exactly when the
field is malformed in one of the claimed ways (not 8 slash-separated
rows, a row expanding to other than 8 squares, or an unrecognized
character), and a well-formed field yields a 64-square board. -/
theorem c8_placement_errors_exactly_when_malformed :
    (∀ s : String, (∃ b, decodePlacement s = Except.ok b) ↔ placementWellFormed s) ∧
    (∀ (s : String) (b : List Cell), decodePlacement s = Except.ok b → b.length = 64) := by
  constructor
  · intro s
    unfold decodePlacement placementWellFormed
    by_cases h8 : (splitRows s.data []).length = 8
    · rw [if_neg (fun hh => hh h8), decodeBoardAux_ok_iff]
      exact ⟨fun h => ⟨h8, h⟩, fun h => h.2⟩
    · rw [if_pos h8]
      constructor
      · intro ⟨b, hb⟩
        exact Except.noConfusion hb
      · intro ⟨hh, _⟩
        exact absurd hh h8
  · intro s b hb
    unfold decodePlacement at hb
    by_cases h8 : (splitRows s.data []).length = 8
    · rw [if_neg (fun hh => hh h8)] at hb
      have hh := decodeBoardAux_length _ _ _ hb
      simp only [List.length_nil, Nat.zero_add] at hh
      omega
    · rw [if_pos h8] at hb
      exact Except.noConfusion hb

/-- Witness for C8: the standard starting placement decodes to the
64-square STARTING_BOARD. -/
theorem c8_witness : STARTING_BOARD.length = 64 :=
  c8_placement_errors_exactly_when_malformed.2
    "rnbqkbnr/pppppppp/8/8/8/8/PPPPPPPP/RNBQKBNR" STARTING_BOARD (by decide)


/-- Partial verification of the perft values: the shallow depths of
Position.search from the standard starting position, and the depth at
most 1 behavior (the leaf count of legal destination squares, with no
descent).  The depth 3 and 4 values (8902 and 197281) also hold of
these definitions under execution but their kernel-checked evaluation
exceeds the verification budget. -/
theorem search_small_depths :
    startPosition.search 1 = 20 ∧
    startPosition.search 2 = 400 ∧
    (∀ (p : Position) (d : Nat), d ≤ 1 → p.search d = leafCount p) := by
  refine ⟨by decide, by decide, ?_⟩
  intro p d hd
  cases d with
  | zero => rfl
  | succ n =>
    cases n with
    | zero => rfl
    | succ m => exact absurd hd (by omega)
